import Mathlib

/-!
# Go feature demos: arrays, conditionals, pointers, slices, structs

A shallow embedding of the five `main` programs under `src/Go/`.  Each program
is a list of statements tagged with the source line they come from; a statement
is a function from the program state to either a fault (a Go run-time panic) or
the next state.  Standard output is the list of lines written so far, each
without its terminating newline.
-/

namespace GoDemos

/-! ## Faults, bounds checks and execution -/

/-- Run-time panics that the statements of the demos could raise. -/
inductive Fault where
  | indexOutOfRange (i len : Nat)
  | sliceBoundsOutOfRange (lo hi cap : Nat)
  | nilDereference
  deriving DecidableEq, Repr

/-- Ghost record of a bounds check performed by an index expression `x[i]`
(index against the length) or a slice expression `x[lo:hi]` (bounds against the
length of the operand at that moment). -/
inductive Check where
  | index (i len : Nat)
  | slice (lo hi len : Nat)
  deriving DecidableEq, Repr

/-- Whether a recorded check is within bounds. -/
def Check.inBounds : Check → Bool
  | .index i len => decide (i < len)
  | .slice lo hi len => decide (lo ≤ hi ∧ hi ≤ len)

/-- A statement: a state transformer that may panic. -/
abbrev Stmt (σ : Type) := σ → Except Fault σ

/-- A program: statements tagged with their source line. -/
abbrev Prog (σ : Type) := List (Nat × Stmt σ)

/-- Run statements in order, stopping at the first panic. -/
def exec {σ : Type} : List (Stmt σ) → σ → Except Fault σ
  | [], s => .ok s
  | f :: fs, s =>
    match f s with
    | .ok t => exec fs t
    | .error e => .error e

/-- The states the run passes through, the starting state first; the list ends
early if a statement panics. -/
def reached {σ : Type} : List (Stmt σ) → σ → List σ
  | [], s => [s]
  | f :: fs, s =>
    s :: (match f s with
      | .ok t => reached fs t
      | .error _ => [])

/-- All statements of a program. -/
def Prog.stmts {σ : Type} (p : Prog σ) : List (Stmt σ) := p.map (fun x => x.2)

/-- The statements of a program on source lines up to and including `line`. -/
def Prog.upTo {σ : Type} (p : Prog σ) (line : Nat) : List (Stmt σ) :=
  (p.filter (fun x => decide (x.1 ≤ line))).map (fun x => x.2)

/-- Rendering of `%d` / `Println` for an `int`. -/
def fmtInt (v : Int) : String := toString v

/-- Rendering by `Println` of an array or slice of `int`: `[a b c]`. -/
def fmtInts (xs : List Int) : String :=
  "[" ++ " ".intercalate (xs.map fmtInt) ++ "]"

/-! ## `arrary.go`: the fixed-array demo -/

/-- State of `arrary.go`: the array variable, standard output, and the bounds
checks performed so far. -/
structure ArrSt where
  numbers : List Int
  out : List String
  checks : List Check

/-- State on entry to `main`, before `numbers` is declared. -/
def ArrSt.init : ArrSt := ⟨[], [], []⟩

/-- Index expression `a[i]` on an array, bounds-checked. -/
def arrIndex (a : List Int) (i : Nat) : Except Fault Int :=
  if h : i < a.length then .ok (a.get ⟨i, h⟩) else .error (.indexOutOfRange i a.length)

/-- Assignment `a[i] = v` on an array, bounds-checked. -/
def arrAssign (a : List Int) (i : Nat) (v : Int) : Except Fault (List Int) :=
  if i < a.length then .ok (a.set i v) else .error (.indexOutOfRange i a.length)

/-- Statement `var numbers [5]int`: five zero-initialised slots. -/
def arrDeclare : Stmt ArrSt := fun st =>
  .ok { st with numbers := List.replicate 5 0 }

/-- Statement `numbers[i] = v`. -/
def arrSetStmt (i : Nat) (v : Int) : Stmt ArrSt := fun st =>
  match arrAssign st.numbers i v with
  | .ok a => .ok { st with numbers := a, checks := st.checks ++ [.index i st.numbers.length] }
  | .error e => .error e

/-- Statement `fmt.Println(numbers)`. -/
def arrPrintAll : Stmt ArrSt := fun st =>
  .ok { st with out := st.out ++ [fmtInts st.numbers] }

/-- Statement `fmt.Println(numbers[i])`. -/
def arrPrintAt (i : Nat) : Stmt ArrSt := fun st =>
  match arrIndex st.numbers i with
  | .ok v => .ok { st with out := st.out ++ [fmtInt v],
                           checks := st.checks ++ [.index i st.numbers.length] }
  | .error e => .error e

/-- Statement `fmt.Println(len(numbers))`. -/
def arrPrintLen : Stmt ArrSt := fun st =>
  .ok { st with out := st.out ++ [toString st.numbers.length] }

/-- The body of `main` in `arrary.go`. -/
def arraryProg : Prog ArrSt :=
  [ (8, arrDeclare),
    (11, arrSetStmt 0 10),
    (12, arrSetStmt 1 20),
    (13, arrSetStmt 2 30),
    (14, arrSetStmt 3 40),
    (15, arrSetStmt 4 50),
    (18, arrPrintAll),
    (21, arrPrintAt 0),
    (22, arrPrintAt 4),
    (25, arrSetStmt 1 25),
    (26, arrPrintAt 1),
    (29, arrPrintLen) ]

/-! ## `ifelse.go`: the conditional demo -/

/-- State of `ifelse.go`. -/
structure IfSt where
  number : Int
  out : List String

/-- State on entry to `main`. -/
def IfSt.init : IfSt := ⟨0, []⟩

/-- Statement `var number int = n`. -/
def ifDeclare (n : Int) : Stmt IfSt := fun st =>
  .ok { st with number := n }

/-- The `if number > 5 ... else if number < 5 ... else ...` chain. -/
def ifChain : Stmt IfSt := fun st =>
  if st.number > 5 then
    .ok { st with out := st.out ++ ["Number is greater than 5"] }
  else if st.number < 5 then
    .ok { st with out := st.out ++ ["Number is less than 5"] }
  else
    .ok { st with out := st.out ++ ["Number is equal to 5"] }

/-- The body of `main` in `ifelse.go`, with the initial value of `number` as a
parameter. -/
def ifelseProg (n : Int) : Prog IfSt :=
  [ (8, ifDeclare n),
    (11, ifChain) ]

/-- The program as written: `number` is `10`. -/
def ifelseMain : Prog IfSt := ifelseProg 10

/-! ## `pointers.go`: the pointer demo -/

/-- State of `pointers.go`: memory cells, the address of the variable
`number`, the value of `ptr` (`none` is the nil pointer) and standard
output. -/
structure PtrSt where
  store : List Int
  number : Nat
  ptr : Option Nat
  out : List String

/-- State on entry to `main`; `cells` is whatever memory is already in use, so
that the address given to `number` is arbitrary. -/
def PtrSt.init (cells : List Int) : PtrSt := ⟨cells, 0, none, []⟩

/-- Read of the cell at address `a`. -/
def loadAt (m : List Int) (a : Nat) : Except Fault Int :=
  match m.get? a with
  | some v => .ok v
  | none => .error .nilDereference

/-- Dereference `*p` for reading. -/
def deref (m : List Int) (p : Option Nat) : Except Fault Int :=
  match p with
  | some a => loadAt m a
  | none => .error .nilDereference

/-- Assignment `*p = v` through a pointer. -/
def storeVia (m : List Int) (p : Option Nat) (v : Int) : Except Fault (List Int) :=
  match p with
  | some a => if a < m.length then .ok (m.set a v) else .error .nilDereference
  | none => .error .nilDereference

/-- Statement `var number int = 10`: a fresh cell holding 10. -/
def ptrDeclareNumber : Stmt PtrSt := fun st =>
  .ok { st with store := st.store ++ [10], number := st.store.length }

/-- Statement `fmt.Printf("Number: %d, Address: %p\n", number, &number)`. -/
def ptrPrintNumberAddr (fmtPtr : Nat → String) : Stmt PtrSt := fun st =>
  match loadAt st.store st.number with
  | .ok v => .ok { st with out := st.out ++
      ["Number: " ++ fmtInt v ++ ", Address: " ++ fmtPtr st.number] }
  | .error e => .error e

/-- Statement `var ptr *int = &number`. -/
def ptrTakeAddr : Stmt PtrSt := fun st =>
  .ok { st with ptr := some st.number }

/-- Statement `fmt.Printf("Pointer: %p, Value: %d\n", ptr, *ptr)`. -/
def ptrPrintPtrValue (fmtPtr : Option Nat → String) : Stmt PtrSt := fun st =>
  match deref st.store st.ptr with
  | .ok v => .ok { st with out := st.out ++
      ["Pointer: " ++ fmtPtr st.ptr ++ ", Value: " ++ fmtInt v] }
  | .error e => .error e

/-- Statement `*ptr = 20`. -/
def ptrWrite : Stmt PtrSt := fun st =>
  match storeVia st.store st.ptr 20 with
  | .ok m => .ok { st with store := m }
  | .error e => .error e

/-- Statement `fmt.Printf("Number after change: %d\n", number)`. -/
def ptrPrintNumber : Stmt PtrSt := fun st =>
  match loadAt st.store st.number with
  | .ok v => .ok { st with out := st.out ++ ["Number after change: " ++ fmtInt v] }
  | .error e => .error e

/-- Statement `fmt.Printf("Dereferenced pointer: %d\n", *ptr)`. -/
def ptrPrintDeref : Stmt PtrSt := fun st =>
  match deref st.store st.ptr with
  | .ok v => .ok { st with out := st.out ++ ["Dereferenced pointer: " ++ fmtInt v] }
  | .error e => .error e

/-- The body of `main` in `pointers.go`; `fmtPtr` is the rendering of `%p`,
which is not fixed across runs. -/
def pointersProg (fmtPtr : Option Nat → String) : Prog PtrSt :=
  [ (8, ptrDeclareNumber),
    (9, ptrPrintNumberAddr (fun a => fmtPtr (some a))),
    (12, ptrTakeAddr),
    (13, ptrPrintPtrValue fmtPtr),
    (16, ptrWrite),
    (17, ptrPrintNumber),
    (20, ptrPrintDeref) ]

/-! ## `structs.go`: the record demo -/

/-- The struct `Person`. -/
structure Person where
  Name : String
  Age : Int

/-- State of `structs.go`. -/
structure StructSt where
  person : Person
  out : List String

/-- State on entry to `main`; `person` holds the zero value until declared. -/
def StructSt.init : StructSt := ⟨⟨"", 0⟩, []⟩

/-- Statement `person := Person{Name: "John Doe", Age: 30}`. -/
def structDeclare : Stmt StructSt := fun st =>
  .ok { st with person := ⟨"John Doe", 30⟩ }

/-- Statement `fmt.Printf("Name: %s, Age: %d\n", person.Name, person.Age)`. -/
def structPrint : Stmt StructSt := fun st =>
  .ok { st with out := st.out ++
    ["Name: " ++ st.person.Name ++ ", Age: " ++ fmtInt st.person.Age] }

/-- The body of `main` in `structs.go`. -/
def structsProg : Prog StructSt :=
  [ (13, structDeclare),
    (16, structPrint) ]

/-! ## `slices.go`: the growable-sequence demo -/

/-- A slice header: the backing array it points into, the offset of its first
element in that array, its length and its capacity. -/
structure Slice where
  arr : Nat
  off : Nat
  len : Nat
  cap : Nat

/-- The backing arrays allocated so far, addressed by position. -/
abbrev Heap := List (List Int)

/-- The nil slice: length and capacity zero. -/
def Slice.nil : Slice := ⟨0, 0, 0, 0⟩

/-- The backing array at address `a`. -/
def Heap.array (h : Heap) (a : Nat) : List Int := h.getD a []

/-- The elements of a slice, read from its backing array. -/
def view (h : Heap) (s : Slice) : List Int :=
  ((h.array s.arr).drop s.off).take s.len

/-- Index expression `s[i]`, bounds-checked against the length. -/
def sliceIndex (h : Heap) (s : Slice) (i : Nat) : Except Fault Int :=
  if i < s.len then .ok ((h.array s.arr).getD (s.off + i) 0)
  else .error (.indexOutOfRange i s.len)

/-- Assignment `s[i] = v`, bounds-checked against the length; it writes into
the backing array. -/
def sliceAssign (h : Heap) (s : Slice) (i : Nat) (v : Int) : Except Fault Heap :=
  if i < s.len then .ok (h.set s.arr ((h.array s.arr).set (s.off + i) v))
  else .error (.indexOutOfRange i s.len)

/-- Slice expression `s[lo:hi]`; for a slice operand the upper bound is
checked against the capacity.  The result shares the backing array. -/
def reslice (s : Slice) (lo hi : Nat) : Except Fault Slice :=
  if lo ≤ hi ∧ hi ≤ s.cap then .ok ⟨s.arr, s.off + lo, hi - lo, s.cap - lo⟩
  else .error (.sliceBoundsOutOfRange lo hi s.cap)

/-- Write the values `vals` into array `a` from position `p` on, one element
after the other. -/
def writeAt (a : List Int) (p : Nat) : List Int → List Int
  | [] => a
  | v :: vs => writeAt (a.set p v) (p + 1) vs

/-- The built-in `append(s, vals...)`.  The values are read before anything is
written.  If they fit in the capacity they are written into the backing array
in place; otherwise a new array is allocated whose capacity is at least the
needed length (`grow oldCap needed` is the allocator's growth policy, which
the language leaves open) and the old elements are copied over. -/
def goAppend (grow : Nat → Nat → Nat) (h : Heap) (s : Slice) (vals : List Int) :
    Heap × Slice :=
  let n := s.len + vals.length
  if n ≤ s.cap then
    (h.set s.arr (writeAt (h.array s.arr) (s.off + s.len) vals), { s with len := n })
  else
    let c := max n (grow s.cap n)
    (h ++ [view h s ++ vals ++ List.replicate (c - n) 0], ⟨h.length, 0, n, c⟩)

/-- The built-in `make([]int, n)`: a fresh zeroed array of length `n`. -/
def goMake (h : Heap) (n : Nat) : Heap × Slice :=
  (h ++ [List.replicate n 0], ⟨h.length, 0, n, n⟩)

/-- The built-in `copy(dst, src)`: copies `min(len(dst), len(src))` elements
and returns that count. -/
def goCopy (h : Heap) (dst src : Slice) : Heap × Nat :=
  let n := min dst.len src.len
  (h.set dst.arr (writeAt (h.array dst.arr) dst.off ((view h src).take n)), n)

/-- State of `slices.go`: the heap of backing arrays, the two slice variables,
standard output, and the bounds checks performed so far. -/
structure SliceSt where
  heap : Heap
  numbers : Slice
  newNumbers : Slice
  out : List String
  checks : List Check

/-- State on entry to `main`. -/
def SliceSt.init : SliceSt := ⟨[], Slice.nil, Slice.nil, [], []⟩

/-- Statement `var numbers []int`: the nil slice. -/
def slDeclare : Stmt SliceSt := fun st =>
  .ok { st with numbers := Slice.nil }

/-- Statement `numbers = append(numbers, vals...)` with literal values. -/
def slAppend (grow : Nat → Nat → Nat) (vals : List Int) : Stmt SliceSt := fun st =>
  let r := goAppend grow st.heap st.numbers vals
  .ok { st with heap := r.1, numbers := r.2 }

/-- Statement `fmt.Println(numbers)`. -/
def slPrintAll : Stmt SliceSt := fun st =>
  .ok { st with out := st.out ++ [fmtInts (view st.heap st.numbers)] }

/-- Statement `fmt.Println(numbers[i])`. -/
def slPrintAt (i : Nat) : Stmt SliceSt := fun st =>
  match sliceIndex st.heap st.numbers i with
  | .ok v => .ok { st with out := st.out ++ [fmtInt v],
                           checks := st.checks ++ [.index i st.numbers.len] }
  | .error e => .error e

/-- Statement `numbers[i] = v`. -/
def slSetStmt (i : Nat) (v : Int) : Stmt SliceSt := fun st =>
  match sliceAssign st.heap st.numbers i v with
  | .ok h => .ok { st with heap := h, checks := st.checks ++ [.index i st.numbers.len] }
  | .error e => .error e

/-- Statement `fmt.Println(len(numbers))`. -/
def slPrintLen : Stmt SliceSt := fun st =>
  .ok { st with out := st.out ++ [toString st.numbers.len] }

/-- Statement `numbers = append(numbers[:2], numbers[3:]...)`. -/
def slRemove (grow : Nat → Nat → Nat) : Stmt SliceSt := fun st =>
  match reslice st.numbers 0 2 with
  | .error e => .error e
  | .ok front =>
    match reslice st.numbers 3 st.numbers.len with
    | .error e => .error e
    | .ok back =>
      let r := goAppend grow st.heap front (view st.heap back)
      .ok { st with heap := r.1, numbers := r.2,
                    checks := st.checks ++ [.slice 0 2 st.numbers.len,
                                            .slice 3 st.numbers.len st.numbers.len] }

/-- Statement `newNumbers := make([]int, len(numbers))`. -/
def slMake : Stmt SliceSt := fun st =>
  let r := goMake st.heap st.numbers.len
  .ok { st with heap := r.1, newNumbers := r.2 }

/-- Statement `copy(newNumbers, numbers)`. -/
def slCopy : Stmt SliceSt := fun st =>
  .ok { st with heap := (goCopy st.heap st.newNumbers st.numbers).1 }

/-- Statement `fmt.Println(newNumbers)`. -/
def slPrintNew : Stmt SliceSt := fun st =>
  .ok { st with out := st.out ++ [fmtInts (view st.heap st.newNumbers)] }

/-- The body of `main` in `slices.go`; `grow` is the growth policy of
`append`. -/
def slicesProg (grow : Nat → Nat → Nat) : Prog SliceSt :=
  [ (8, slDeclare),
    (11, slAppend grow [10, 20, 30]),
    (14, slPrintAll),
    (17, slPrintAt 0),
    (18, slPrintAt 2),
    (21, slSetStmt 1 25),
    (22, slPrintAt 1),
    (25, slPrintLen),
    (28, slAppend grow [40, 50]),
    (29, slPrintAll),
    (32, slRemove grow),
    (33, slPrintAll),
    (36, slMake),
    (37, slCopy),
    (38, slPrintNew) ]

/-- A slice header is well-formed in a heap when its backing array is allocated,
its length is within its capacity and its capacity lies within the array. -/
def Slice.WF (h : Heap) (s : Slice) : Prop :=
  s.arr < h.length ∧ s.len ≤ s.cap ∧ s.off + s.cap ≤ (h.array s.arr).length

/-- What is known about the state of `slices.go` at a program point: the header
of `numbers` is well-formed, its elements are `xs`, and the output and the
bounds checks so far are `o` and `c`. -/
def SliceSt.Holds (st : SliceSt) (xs : List Int) (o : List String) (c : List Check) : Prop :=
  st.numbers.WF st.heap ∧ view st.heap st.numbers = xs ∧ st.out = o ∧ st.checks = c

/-! ## Facts about the slice operations -/

theorem writeAt_length (vals : List Int) : ∀ (a : List Int) (p : Nat),
    (writeAt a p vals).length = a.length := by
  induction vals with
  | nil => intro a p; rfl
  | cons v vs ih => intro a p; simp [writeAt, ih]

theorem writeAt_eq (vals : List Int) : ∀ (a : List Int) (p : Nat),
    p + vals.length ≤ a.length →
    writeAt a p vals = a.take p ++ vals ++ a.drop (p + vals.length) := by
  induction vals with
  | nil => intro a p _; simp [writeAt]
  | cons v vs ih =>
    intro a p hp
    simp only [List.length_cons] at hp
    have hlt : p < a.length := by omega
    have hlen : (a.take p).length = p := by simp; omega
    rw [writeAt, ih _ _ (by simp; omega)]
    rw [List.drop_set_of_lt v a (by omega), List.set_eq_take_append_cons_drop, if_pos hlt]
    rw [List.take_append_eq_append_take, hlen]
    simp [List.take_take]
    congr 1; omega

theorem array_set_self (h : Heap) (a : Nat) (x : List Int) (ha : a < h.length) :
    Heap.array (h.set a x) a = x := by
  simp [Heap.array, List.getD, ha]

theorem array_set_ne (h : Heap) (a b : Nat) (x : List Int) (hab : a ≠ b) :
    Heap.array (h.set a x) b = Heap.array h b := by
  simp [Heap.array, List.getD, List.getElem?_set_ne hab]

theorem array_append_lt (h : Heap) (a : Nat) (x : List Int) (ha : a < h.length) :
    Heap.array (h ++ [x]) a = Heap.array h a := by
  simp [Heap.array, List.getD, List.getElem?_append_left ha]

theorem array_append_length (h : Heap) (x : List Int) :
    Heap.array (h ++ [x]) h.length = x := by
  simp [Heap.array, List.getD]

theorem view_length (h : Heap) (s : Slice) (hs : s.WF h) : (view h s).length = s.len := by
  obtain ⟨_, h1, h2⟩ := hs
  simp [view]; omega

theorem view_goAppend (grow : Nat → Nat → Nat) (h : Heap) (s : Slice) (vals : List Int)
    (hs : s.WF h) :
    view (goAppend grow h s vals).1 (goAppend grow h s vals).2 = view h s ++ vals := by
  have hv := view_length h s hs
  obtain ⟨h0, h1, h2⟩ := hs
  unfold goAppend
  simp only
  split
  · rename_i hfit
    have hl : (List.take (s.off + s.len) (h.array s.arr)).length = s.off + s.len := by
      simp; omega
    have hd : List.drop s.off (List.take (s.off + s.len) (h.array s.arr)) = view h s := by
      rw [List.drop_take]; simp [view]
    simp only [view, array_set_self _ _ _ h0]
    rw [writeAt_eq _ _ _ (by omega), List.append_assoc,
      List.drop_append_of_le_length (by omega), hd, ← List.append_assoc]
    exact List.take_left' (by simp [hv])
  · simp only [view, array_append_length, List.drop_zero]
    exact List.take_left' (by simp [view] at hv; simp [hv])

theorem wf_goAppend (grow : Nat → Nat → Nat) (h : Heap) (s : Slice) (vals : List Int)
    (hs : s.WF h) :
    (goAppend grow h s vals).2.WF (goAppend grow h s vals).1 := by
  have hv := view_length h s hs
  obtain ⟨h0, h1, h2⟩ := hs
  unfold goAppend
  simp only
  split
  · rename_i hfit
    refine ⟨by simpa using h0, hfit, ?_⟩
    simp only [array_set_self _ _ _ h0, writeAt_length]
    exact h2
  · refine ⟨by simp, by simp, ?_⟩
    simp only [array_append_length]
    simp [hv]
    omega

theorem len_goAppend (grow : Nat → Nat → Nat) (h : Heap) (s : Slice) (vals : List Int) :
    (goAppend grow h s vals).2.len = s.len + vals.length := by
  unfold goAppend
  simp only
  split <;> rfl

theorem sliceIndex_ok (h : Heap) (s : Slice) (i : Nat) (hs : s.WF h) (hi : i < s.len) :
    sliceIndex h s i = .ok ((view h s).getD i 0) := by
  obtain ⟨h0, h1, h2⟩ := hs
  simp [sliceIndex, hi, view, List.getElem?_take, List.getElem?_drop]

theorem sliceAssign_ok (h : Heap) (s : Slice) (i : Nat) (v : Int) (hs : s.WF h)
    (hi : i < s.len) :
    ∃ g, sliceAssign h s i v = .ok g ∧ view g s = (view h s).set i v ∧ s.WF g := by
  obtain ⟨h0, h1, h2⟩ := hs
  refine ⟨h.set s.arr ((h.array s.arr).set (s.off + i) v), by simp [sliceAssign, hi], ?_, ?_⟩
  · simp only [view, array_set_self _ _ _ h0]
    rw [← List.set_take, List.set_drop]
  · refine ⟨by simpa using h0, h1, ?_⟩
    simp only [array_set_self _ _ _ h0, List.length_set]
    exact h2

theorem reslice_ok (h : Heap) (s : Slice) (lo hi : Nat) (hs : s.WF h)
    (hlo : lo ≤ hi) (hhi : hi ≤ s.len) :
    ∃ t, reslice s lo hi = .ok t ∧ view h t = ((view h s).drop lo).take (hi - lo) ∧
      t.WF h ∧ t.cap = s.cap - lo ∧ t.len = hi - lo := by
  obtain ⟨h0, h1, h2⟩ := hs
  have hc : lo ≤ hi ∧ hi ≤ s.cap := ⟨hlo, by omega⟩
  refine ⟨⟨s.arr, s.off + lo, hi - lo, s.cap - lo⟩, by simp [reslice, hc], ?_, ?_, rfl, rfl⟩
  · simp only [view]
    rw [List.drop_take, List.drop_drop, List.take_take]
    congr 1
    omega
  · refine ⟨h0, ?_, ?_⟩
    · show hi - lo ≤ s.cap - lo
      omega
    · show s.off + lo + (s.cap - lo) ≤ (h.array s.arr).length
      omega

theorem sliceAssign_frame (h g : Heap) (d s : Slice) (i : Nat) (v : Int)
    (hne : d.arr ≠ s.arr) (hg : sliceAssign h d i v = .ok g) : view g s = view h s := by
  unfold sliceAssign at hg
  split at hg
  · injection hg with hg
    subst hg
    simp only [view, array_set_ne _ _ _ _ hne]
  · cases hg

theorem make_copy (h : Heap) (s : Slice) (hs : s.WF h) :
    view (goCopy (goMake h s.len).1 (goMake h s.len).2 s).1 (goMake h s.len).2 = view h s ∧
    view (goCopy (goMake h s.len).1 (goMake h s.len).2 s).1 s = view h s ∧
    (goMake h s.len).2.arr ≠ s.arr ∧
    (goMake h s.len).2.WF (goCopy (goMake h s.len).1 (goMake h s.len).2 s).1 ∧
    s.WF (goCopy (goMake h s.len).1 (goMake h s.len).2 s).1 ∧
    (goMake h s.len).2.len = s.len := by
  have hv := view_length h s hs
  obtain ⟨h0, h1, h2⟩ := hs
  have hne : h.length ≠ s.arr := by omega
  have hsame : view (h ++ [List.replicate s.len 0]) s = view h s := by
    simp only [view, array_append_lt _ _ _ h0]
  have hlt : h.length < (h ++ [List.replicate s.len (0 : Int)]).length := by simp
  have hw : writeAt (List.replicate s.len (0 : Int)) 0 (view h s) = view h s := by
    rw [writeAt_eq _ _ _ (by simp [hv])]
    simp [hv]
  simp only [goCopy, goMake, Nat.min_self, hsame, array_append_length]
  rw [List.take_of_length_le (by omega), hw]
  refine ⟨?_, ?_, hne, ?_, ?_, trivial⟩
  · simp only [view, array_set_self _ _ _ hlt, List.drop_zero]
    exact List.take_of_length_le (by simp only [view] at hv; omega)
  · simp only [view, array_set_ne _ _ _ _ hne, array_append_lt _ _ _ h0]
  · refine ⟨by simp, Nat.le_refl _, ?_⟩
    simp only [array_set_self _ _ _ hlt]
    omega
  · refine ⟨by simp; omega, h1, ?_⟩
    simp only [array_set_ne _ _ _ _ hne, array_append_lt _ _ _ h0]
    exact h2

/-! ### Statement-level facts for `slices.go` -/

theorem exec_cons_ok {σ : Type} {f : Stmt σ} {fs : List (Stmt σ)} {s t : σ}
    (h : f s = .ok t) : exec (f :: fs) s = exec fs t := by
  simp [exec, h]

theorem exec_append_ok {σ : Type} {a b : List (Stmt σ)} {s t : σ}
    (h : exec a s = .ok t) : exec (a ++ b) s = exec b t := by
  induction a generalizing s with
  | nil => simp only [exec] at h; injection h with h; subst h; rfl
  | cons f fs ih =>
    simp only [exec, List.cons_append] at h ⊢
    cases hf : f s with
    | ok u => rw [hf] at h; exact ih h
    | error e => rw [hf] at h; cases h

theorem holds_len {st : SliceSt} {xs : List Int} {o : List String} {c : List Check}
    (H : st.Holds xs o c) : st.numbers.len = xs.length := by
  obtain ⟨hw, hv, _, _⟩ := H
  rw [← hv, view_length _ _ hw]

theorem slAppend_holds (grow : Nat → Nat → Nat) (vals : List Int) {st : SliceSt}
    {xs : List Int} {o : List String} {c : List Check} (H : st.Holds xs o c) :
    ∃ t, slAppend grow vals st = .ok t ∧ t.Holds (xs ++ vals) o c := by
  obtain ⟨hw, hv, ho, hc⟩ := H
  exact ⟨_, rfl, wf_goAppend grow _ _ vals hw,
    by rw [← hv]; exact view_goAppend grow _ _ vals hw, ho, hc⟩

theorem slPrintAll_holds {st : SliceSt}
    {xs : List Int} {o : List String} {c : List Check} (H : st.Holds xs o c) :
    ∃ t, slPrintAll st = .ok t ∧ t.Holds xs (o ++ [fmtInts xs]) c := by
  obtain ⟨hw, hv, ho, hc⟩ := H
  exact ⟨_, rfl, hw, hv, by simp only [ho, hv], hc⟩

theorem slPrintLen_holds {st : SliceSt}
    {xs : List Int} {o : List String} {c : List Check} (H : st.Holds xs o c) :
    ∃ t, slPrintLen st = .ok t ∧ t.Holds xs (o ++ [toString xs.length]) c := by
  have hl := holds_len H
  obtain ⟨hw, hv, ho, hc⟩ := H
  exact ⟨_, rfl, hw, hv, by simp only [ho, hl], hc⟩

theorem slPrintAt_holds (i : Nat) {st : SliceSt}
    {xs : List Int} {o : List String} {c : List Check} (H : st.Holds xs o c)
    (hi : i < xs.length) :
    ∃ t, slPrintAt i st = .ok t ∧
      t.Holds xs (o ++ [fmtInt (xs.getD i 0)]) (c ++ [.index i xs.length]) := by
  have hl := holds_len H
  obtain ⟨hw, hv, ho, hc⟩ := H
  have hr := sliceIndex_ok st.heap st.numbers i hw (by omega)
  rw [hv] at hr
  have e : slPrintAt i st = .ok { st with
      out := st.out ++ [fmtInt (xs.getD i 0)],
      checks := st.checks ++ [.index i st.numbers.len] } := by
    simp only [slPrintAt, hr]
  exact ⟨_, e, hw, hv, by simp only [ho], by simp only [hc, hl]⟩

theorem slSetStmt_holds (i : Nat) (v : Int) {st : SliceSt}
    {xs : List Int} {o : List String} {c : List Check} (H : st.Holds xs o c)
    (hi : i < xs.length) :
    ∃ t, slSetStmt i v st = .ok t ∧ t.Holds (xs.set i v) o (c ++ [.index i xs.length]) := by
  have hl := holds_len H
  obtain ⟨hw, hv, ho, hc⟩ := H
  obtain ⟨g, hg, hgv, hgw⟩ := sliceAssign_ok st.heap st.numbers i v hw (by omega)
  have e : slSetStmt i v st = .ok { st with
      heap := g, checks := st.checks ++ [.index i st.numbers.len] } := by
    simp only [slSetStmt, hg]
  exact ⟨_, e, hgw, by rw [← hv]; exact hgv, ho, by simp only [hc, hl]⟩

theorem slRemove_holds (grow : Nat → Nat → Nat) {st : SliceSt}
    {xs : List Int} {o : List String} {c : List Check} (H : st.Holds xs o c)
    (hn : 3 ≤ xs.length) :
    ∃ t, slRemove grow st = .ok t ∧
      t.Holds (xs.take 2 ++ xs.drop 3) o
        (c ++ [.slice 0 2 xs.length, .slice 3 xs.length xs.length]) := by
  have hl := holds_len H
  obtain ⟨hw, hv, ho, hc⟩ := H
  obtain ⟨a, ha, hav, haw, _, _⟩ := reslice_ok st.heap st.numbers 0 2 hw (by omega) (by omega)
  obtain ⟨b, hb, hbv, _, _, _⟩ :=
    reslice_ok st.heap st.numbers 3 st.numbers.len hw (by omega) (Nat.le_refl _)
  have e : slRemove grow st = .ok { st with
      heap := (goAppend grow st.heap a (view st.heap b)).1,
      numbers := (goAppend grow st.heap a (view st.heap b)).2,
      checks := st.checks ++ [.slice 0 2 st.numbers.len,
                              .slice 3 st.numbers.len st.numbers.len] } := by
    simp only [slRemove, ha, hb]
  refine ⟨_, e, wf_goAppend grow _ _ _ haw, ?_, ho, by simp only [hc, hl]⟩
  show view (goAppend grow st.heap a (view st.heap b)).1
      (goAppend grow st.heap a (view st.heap b)).2 = _
  rw [view_goAppend grow _ _ _ haw, hav, hbv, hv]
  simp [hl]

theorem slMake_slCopy_holds {st : SliceSt}
    {xs : List Int} {o : List String} {c : List Check} (H : st.Holds xs o c) :
    ∃ t, exec [slMake, slCopy] st = .ok t ∧ t.Holds xs o c ∧
      t.newNumbers.WF t.heap ∧ view t.heap t.newNumbers = xs ∧
      t.newNumbers.arr ≠ t.numbers.arr := by
  obtain ⟨hw, hv, ho, hc⟩ := H
  obtain ⟨m1, m2, m3, m4, m5, _⟩ := make_copy st.heap st.numbers hw
  exact ⟨_, rfl, ⟨m5, by rw [← hv]; exact m2, ho, hc⟩, m4, by rw [← hv]; exact m1, m3⟩

theorem slPrintNew_holds {st : SliceSt}
    {xs : List Int} {o : List String} {c : List Check} (H : st.Holds xs o c)
    (hn : view st.heap st.newNumbers = xs) :
    ∃ t, slPrintNew st = .ok t ∧ t.Holds xs (o ++ [fmtInts xs]) c ∧
      t.heap = st.heap ∧ t.newNumbers = st.newNumbers := by
  obtain ⟨hw, hv, ho, hc⟩ := H
  exact ⟨_, rfl, ⟨hw, hv, by simp only [ho, hn], hc⟩, rfl, rfl⟩

theorem exec_extend {σ : Type} {a b : List (Stmt σ)} {s : σ} {P Q : σ → Prop}
    (ha : ∃ t, exec a s = .ok t ∧ P t)
    (hb : ∀ t, P t → ∃ u, exec b t = .ok u ∧ Q u) :
    ∃ u, exec (a ++ b) s = .ok u ∧ Q u := by
  obtain ⟨t, e, hp⟩ := ha
  rw [exec_append_ok e]
  exact hb t hp

theorem exec_step {σ : Type} {f : Stmt σ} {fs : List (Stmt σ)} {s : σ} {P Q : σ → Prop}
    (hf : ∃ t, f s = .ok t ∧ P t)
    (hr : ∀ t, P t → ∃ u, exec fs t = .ok u ∧ Q u) :
    ∃ u, exec (f :: fs) s = .ok u ∧ Q u := by
  obtain ⟨t, e, hp⟩ := hf
  rw [exec_cons_ok e]
  exact hr t hp

theorem exec_done {σ : Type} {s : σ} {Q : σ → Prop} (h : Q s) :
    ∃ u, exec ([] : List (Stmt σ)) s = .ok u ∧ Q u := ⟨s, rfl, h⟩

/-! ### The run of `slices.go`, point by point -/

theorem slices_at_11 (grow : Nat → Nat → Nat) :
    ∃ st, exec ((slicesProg grow).upTo 11) SliceSt.init = .ok st ∧
      st.Holds [10, 20, 30] [] [] := by
  refine ⟨_, rfl, ?_, ?_, rfl, rfl⟩
  · refine ⟨?_, ?_, ?_⟩
    · simp [goAppend, Slice.nil, SliceSt.init]
    · simp [goAppend, Slice.nil, SliceSt.init]
    · simp [goAppend, Slice.nil, SliceSt.init, Heap.array, view]
      omega
  · simp [goAppend, Slice.nil, SliceSt.init, Heap.array, view]

theorem slices_at_18 (grow : Nat → Nat → Nat) :
    ∃ st, exec ((slicesProg grow).upTo 18) SliceSt.init = .ok st ∧
      st.Holds [10, 20, 30] ["[10 20 30]", "10", "30"] [.index 0 3, .index 2 3] := by
  refine exec_extend (b := [slPrintAll, slPrintAt 0, slPrintAt 2]) (slices_at_11 grow) ?_
  intro s0 H0
  refine exec_step (slPrintAll_holds H0) fun s1 H1 => ?_
  refine exec_step (slPrintAt_holds 0 H1 (by decide)) fun s2 H2 => ?_
  refine exec_step (slPrintAt_holds 2 H2 (by decide)) fun s3 H3 => ?_
  exact exec_done H3

theorem slices_at_21 (grow : Nat → Nat → Nat) :
    ∃ st, exec ((slicesProg grow).upTo 21) SliceSt.init = .ok st ∧
      st.Holds [10, 25, 30] ["[10 20 30]", "10", "30"]
        [.index 0 3, .index 2 3, .index 1 3] := by
  refine exec_extend (b := [slSetStmt 1 25]) (slices_at_18 grow) ?_
  intro s0 H0
  refine exec_step (slSetStmt_holds 1 25 H0 (by decide)) fun s1 H1 => ?_
  exact exec_done H1

theorem slices_at_28 (grow : Nat → Nat → Nat) :
    ∃ st, exec ((slicesProg grow).upTo 28) SliceSt.init = .ok st ∧
      st.Holds [10, 25, 30, 40, 50] ["[10 20 30]", "10", "30", "25", "3"]
        [.index 0 3, .index 2 3, .index 1 3, .index 1 3] := by
  refine exec_extend (b := [slPrintAt 1, slPrintLen, slAppend grow [40, 50]])
    (slices_at_21 grow) ?_
  intro s0 H0
  refine exec_step (slPrintAt_holds 1 H0 (by decide)) fun s1 H1 => ?_
  refine exec_step (slPrintLen_holds H1) fun s2 H2 => ?_
  refine exec_step (slAppend_holds grow [40, 50] H2) fun s3 H3 => ?_
  exact exec_done H3

theorem slices_at_29 (grow : Nat → Nat → Nat) :
    ∃ st, exec ((slicesProg grow).upTo 29) SliceSt.init = .ok st ∧
      st.Holds [10, 25, 30, 40, 50]
        ["[10 20 30]", "10", "30", "25", "3", "[10 25 30 40 50]"]
        [.index 0 3, .index 2 3, .index 1 3, .index 1 3] := by
  refine exec_extend (b := [slPrintAll]) (slices_at_28 grow) ?_
  intro s0 H0
  refine exec_step (slPrintAll_holds H0) fun s1 H1 => ?_
  exact exec_done H1

theorem slices_at_32 (grow : Nat → Nat → Nat) :
    ∃ st, exec ((slicesProg grow).upTo 32) SliceSt.init = .ok st ∧
      st.Holds [10, 25, 40, 50]
        ["[10 20 30]", "10", "30", "25", "3", "[10 25 30 40 50]"]
        [.index 0 3, .index 2 3, .index 1 3, .index 1 3, .slice 0 2 5, .slice 3 5 5] := by
  refine exec_extend (b := [slRemove grow]) (slices_at_29 grow) ?_
  intro s0 H0
  refine exec_step (slRemove_holds grow H0 (by decide)) fun s1 H1 => ?_
  exact exec_done H1

theorem slices_at_33 (grow : Nat → Nat → Nat) :
    ∃ st, exec ((slicesProg grow).upTo 33) SliceSt.init = .ok st ∧
      st.Holds [10, 25, 40, 50]
        ["[10 20 30]", "10", "30", "25", "3", "[10 25 30 40 50]", "[10 25 40 50]"]
        [.index 0 3, .index 2 3, .index 1 3, .index 1 3, .slice 0 2 5, .slice 3 5 5] := by
  refine exec_extend (b := [slPrintAll]) (slices_at_32 grow) ?_
  intro s0 H0
  refine exec_step (slPrintAll_holds H0) fun s1 H1 => ?_
  exact exec_done H1

theorem slices_at_37 (grow : Nat → Nat → Nat) :
    ∃ st, exec ((slicesProg grow).upTo 37) SliceSt.init = .ok st ∧
      st.Holds [10, 25, 40, 50]
        ["[10 20 30]", "10", "30", "25", "3", "[10 25 30 40 50]", "[10 25 40 50]"]
        [.index 0 3, .index 2 3, .index 1 3, .index 1 3, .slice 0 2 5, .slice 3 5 5] ∧
      st.newNumbers.WF st.heap ∧ view st.heap st.newNumbers = [10, 25, 40, 50] ∧
      st.newNumbers.arr ≠ st.numbers.arr := by
  refine exec_extend (b := [slMake, slCopy]) (slices_at_33 grow) ?_
  intro s0 H0
  exact slMake_slCopy_holds H0

theorem slices_at_end (grow : Nat → Nat → Nat) :
    ∃ st, exec (slicesProg grow).stmts SliceSt.init = .ok st ∧
      st.Holds [10, 25, 40, 50]
        ["[10 20 30]", "10", "30", "25", "3", "[10 25 30 40 50]", "[10 25 40 50]",
         "[10 25 40 50]"]
        [.index 0 3, .index 2 3, .index 1 3, .index 1 3, .slice 0 2 5, .slice 3 5 5] := by
  refine exec_extend (b := [slPrintNew]) (slices_at_37 grow) ?_
  intro s0 H0
  obtain ⟨t, e, H, _, _⟩ := slPrintNew_holds H0.1 H0.2.2.1
  exact exec_step ⟨t, e, H⟩ fun s1 H1 => exec_done H1

theorem sliceIndex_eq_view (h : Heap) (s : Slice) (i : Nat) (hs : s.WF h) :
    sliceIndex h s i =
      if i < s.len then .ok ((view h s).getD i 0) else .error (.indexOutOfRange i s.len) := by
  by_cases hi : i < s.len
  · rw [if_pos hi]; exact sliceIndex_ok h s i hs hi
  · simp [sliceIndex, hi]

theorem loadAt_concat (cells : List Int) (v : Int) :
    loadAt (cells ++ [v]) cells.length = .ok v := by
  simp [loadAt]

theorem storeVia_concat (cells : List Int) (v w : Int) :
    storeVia (cells ++ [v]) (some cells.length) w = .ok (cells ++ [w]) := by
  simp [storeVia]

theorem reached_length_of_ok {σ : Type} (fs : List (Stmt σ)) :
    ∀ (s t : σ), exec fs s = .ok t → (reached fs s).length = fs.length + 1 := by
  induction fs with
  | nil => intro s t _; rfl
  | cons f fs ih =>
    intro s t h
    simp only [exec] at h
    cases hf : f s with
    | ok u =>
      rw [hf] at h
      simp only [reached, hf, List.length_cons, ih u t h]
    | error e => rw [hf] at h; cases h

/-! ## The claims -/

/-- C1: in `slices.go`, the removal `numbers = append(numbers[:2], numbers[3:]...)`
on line 32, run on `[10,25,30,40,50]`, leaves `numbers` equal to `[10,25,40,50]`
with length 4: exactly the element at index 2 is dropped and the others keep
their order.  This holds for every growth policy of `append`. -/
theorem slices_removal_drops_index_two (grow : Nat → Nat → Nat) :
    ∃ before after,
      exec ((slicesProg grow).upTo 29) SliceSt.init = .ok before ∧
      slRemove grow before = .ok after ∧
      exec ((slicesProg grow).upTo 32) SliceSt.init = .ok after ∧
      view before.heap before.numbers = [10, 25, 30, 40, 50] ∧
      view after.heap after.numbers = [10, 25, 40, 50] ∧
      after.numbers.len = 4 ∧
      view after.heap after.numbers = (view before.heap before.numbers).eraseIdx 2 := by
  obtain ⟨s, es, Hs⟩ := slices_at_29 grow
  obtain ⟨t, et, Ht⟩ := slRemove_holds grow Hs (by decide)
  have e32 : exec ((slicesProg grow).upTo 32) SliceSt.init = .ok t := by
    show exec ((slicesProg grow).upTo 29 ++ [slRemove grow]) SliceSt.init = .ok t
    rw [exec_append_ok es, exec_cons_ok et]
    rfl
  refine ⟨s, t, es, et, e32, Hs.2.1, Ht.2.1, holds_len Ht, ?_⟩
  rw [Hs.2.1, Ht.2.1]
  rfl

/-- C2: evaluation of `slices.go` at the `Println` on line 33: the line written
is `[10 25 40 50]` and `numbers` has length 4, not the `[10 25 40]` of length 3
that the comment on that line announces. -/
theorem slices_line33_prints_four_elements (grow : Nat → Nat → Nat) :
    ∃ st, exec ((slicesProg grow).upTo 33) SliceSt.init = .ok st ∧
      st.out.getLast? = some "[10 25 40 50]" ∧
      st.out.getLast? ≠ some "[10 25 40]" ∧
      view st.heap st.numbers = [10, 25, 40, 50] ∧
      st.numbers.len = 4 ∧ st.numbers.len ≠ 3 := by
  obtain ⟨s, es, Hs⟩ := slices_at_33 grow
  have hl := holds_len Hs
  refine ⟨s, es, ?_, ?_, Hs.2.1, hl, ?_⟩
  · rw [Hs.2.2.1]; rfl
  · rw [Hs.2.2.1]; decide
  · rw [hl]; decide

/-- C3: in `slices.go`, after `newNumbers := make([]int, len(numbers))` and
`copy(newNumbers, numbers)` the new slice has the length of `numbers` and the
same elements, and it does not share storage with it: for every value `v`, the
write `newNumbers[0] = v` succeeds, is visible in `newNumbers`, and leaves
every element of `numbers` as it was (element 0 still reads 10). -/
theorem slices_copy_is_independent (grow : Nat → Nat → Nat) :
    ∃ st, exec ((slicesProg grow).upTo 37) SliceSt.init = .ok st ∧
      st.newNumbers.len = st.numbers.len ∧
      view st.heap st.newNumbers = view st.heap st.numbers ∧
      (∀ i, sliceIndex st.heap st.newNumbers i = sliceIndex st.heap st.numbers i) ∧
      ∀ v : Int, ∃ g, sliceAssign st.heap st.newNumbers 0 v = .ok g ∧
        sliceIndex g st.newNumbers 0 = .ok v ∧
        view g st.numbers = view st.heap st.numbers ∧
        (∀ i, sliceIndex g st.numbers i = sliceIndex st.heap st.numbers i) ∧
        sliceIndex g st.numbers 0 = .ok 10 := by
  obtain ⟨s, es, Hs, hw, hv, hne⟩ := slices_at_37 grow
  have hl := holds_len Hs
  have hln : s.newNumbers.len = 4 := by rw [← view_length _ _ hw, hv]; rfl
  have hl4 : s.numbers.len = 4 := hl
  refine ⟨s, es, by rw [hln, hl4], by rw [hv, Hs.2.1], ?_, ?_⟩
  · intro i
    rw [sliceIndex_eq_view _ _ _ hw, sliceIndex_eq_view _ _ _ Hs.1, hv, Hs.2.1, hln, hl4]
  · intro v
    obtain ⟨g, eg, hgv, hgw⟩ := sliceAssign_ok s.heap s.newNumbers 0 v hw (by omega)
    have hfr := sliceAssign_frame s.heap g s.newNumbers s.numbers 0 v hne eg
    have hwn : s.numbers.WF g := by
      obtain ⟨a, b, c⟩ := Hs.1
      unfold sliceAssign at eg
      rw [if_pos (by omega)] at eg
      injection eg with eg
      subst eg
      exact ⟨by simpa using a, b, by rw [array_set_ne _ _ _ _ hne]; exact c⟩
    refine ⟨g, eg, ?_, hfr, ?_, ?_⟩
    · rw [sliceIndex_ok _ _ _ hgw (by omega), hgv, hv]; rfl
    · intro i
      rw [sliceIndex_eq_view _ _ _ hwn, sliceIndex_eq_view _ _ _ Hs.1, hfr]
    · rw [sliceIndex_ok _ _ _ hwn (by omega), hfr, Hs.2.1]; rfl

/-- C4: in `slices.go`, `numbers` starts as the nil slice (length 0); after
`append(numbers, 10, 20, 30)` it has length 3 with element 0 equal to 10 and
element 2 equal to 30; after `numbers[1] = 25` and `append(numbers, 40, 50)` it
is `[10,25,30,40,50]` with length 5. -/
theorem slices_appends_build_sequence (grow : Nat → Nat → Nat) :
    (∃ st, exec ((slicesProg grow).upTo 8) SliceSt.init = .ok st ∧
      st.numbers.len = 0 ∧ view st.heap st.numbers = []) ∧
    (∃ st, exec ((slicesProg grow).upTo 11) SliceSt.init = .ok st ∧
      st.numbers.len = 3 ∧
      sliceIndex st.heap st.numbers 0 = .ok 10 ∧
      sliceIndex st.heap st.numbers 2 = .ok 30 ∧
      view st.heap st.numbers = [10, 20, 30]) ∧
    (∃ st, exec ((slicesProg grow).upTo 28) SliceSt.init = .ok st ∧
      view st.heap st.numbers = [10, 25, 30, 40, 50] ∧
      st.numbers.len = 5) := by
  refine ⟨⟨_, rfl, rfl, rfl⟩, ?_, ?_⟩
  · obtain ⟨s, es, Hs⟩ := slices_at_11 grow
    have hl : s.numbers.len = 3 := holds_len Hs
    refine ⟨s, es, hl, ?_, ?_, Hs.2.1⟩
    · rw [sliceIndex_ok _ _ _ Hs.1 (by omega), Hs.2.1]; rfl
    · rw [sliceIndex_ok _ _ _ Hs.1 (by omega), Hs.2.1]; rfl
  · obtain ⟨s, es, Hs⟩ := slices_at_28 grow
    exact ⟨s, es, Hs.2.1, holds_len Hs⟩

/-- C9: in `slices.go`, the write `numbers[1] = 25` on `[10,20,30]` changes
element 1 only: afterwards element 1 reads 25, elements 0 and 2 still read 10
and 30, and the length is still 3. -/
theorem slices_write_changes_one_element (grow : Nat → Nat → Nat) :
    ∃ before after,
      exec ((slicesProg grow).upTo 18) SliceSt.init = .ok before ∧
      slSetStmt 1 25 before = .ok after ∧
      exec ((slicesProg grow).upTo 21) SliceSt.init = .ok after ∧
      view before.heap before.numbers = [10, 20, 30] ∧
      sliceIndex after.heap after.numbers 1 = .ok 25 ∧
      sliceIndex after.heap after.numbers 0 = .ok 10 ∧
      sliceIndex after.heap after.numbers 2 = .ok 30 ∧
      before.numbers.len = 3 ∧ after.numbers.len = 3 ∧
      view after.heap after.numbers = (view before.heap before.numbers).set 1 25 := by
  obtain ⟨s, es, Hs⟩ := slices_at_18 grow
  obtain ⟨t, et, Ht⟩ := slSetStmt_holds 1 25 Hs (by decide)
  have e21 : exec ((slicesProg grow).upTo 21) SliceSt.init = .ok t := by
    show exec ((slicesProg grow).upTo 18 ++ [slSetStmt 1 25]) SliceSt.init = .ok t
    rw [exec_append_ok es, exec_cons_ok et]
    rfl
  have hl : t.numbers.len = 3 := holds_len Ht
  refine ⟨s, t, es, et, e21, Hs.2.1, ?_, ?_, ?_, holds_len Hs, hl, ?_⟩
  · rw [sliceIndex_ok _ _ _ Ht.1 (by omega), Ht.2.1]; rfl
  · rw [sliceIndex_ok _ _ _ Ht.1 (by omega), Ht.2.1]; rfl
  · rw [sliceIndex_ok _ _ _ Ht.1 (by omega), Ht.2.1]; rfl
  · rw [Hs.2.1, Ht.2.1]

/-- C5: in `arrary.go`, after the five assignments (and until the later write)
the array read at indices 0..4 is `[10,20,30,40,50]`; after `numbers[1] = 25`
it is `[10,25,30,40,50]`; and at every program point from the declaration on,
through the assignments and after the mutation, the array has length 5. -/
theorem arrary_contents_and_length :
    (∃ st, exec (arraryProg.upTo 15) ArrSt.init = .ok st ∧
      (List.range 5).map (arrIndex st.numbers) = [.ok 10, .ok 20, .ok 30, .ok 40, .ok 50] ∧
      st.numbers = [10, 20, 30, 40, 50]) ∧
    (∃ st, exec (arraryProg.upTo 22) ArrSt.init = .ok st ∧
      (List.range 5).map (arrIndex st.numbers) = [.ok 10, .ok 20, .ok 30, .ok 40, .ok 50]) ∧
    (∃ st, exec (arraryProg.upTo 25) ArrSt.init = .ok st ∧
      (List.range 5).map (arrIndex st.numbers) = [.ok 10, .ok 25, .ok 30, .ok 40, .ok 50] ∧
      st.numbers = [10, 25, 30, 40, 50]) ∧
    (∃ st, exec arraryProg.stmts ArrSt.init = .ok st ∧
      st.numbers = [10, 25, 30, 40, 50] ∧
      st.out = ["[10 20 30 40 50]", "10", "50", "25", "5"]) ∧
    (reached arraryProg.stmts ArrSt.init).length = arraryProg.length + 1 ∧
    (∀ st ∈ (reached arraryProg.stmts ArrSt.init).tail, st.numbers.length = 5) ∧
    (∀ (a : List Int) (i : Nat) (v : Int) (b : List Int),
      arrAssign a i v = .ok b → b.length = a.length) := by
  refine ⟨⟨_, rfl, rfl, rfl⟩, ⟨_, rfl, rfl⟩, ⟨_, rfl, rfl, rfl⟩, ⟨_, rfl, rfl, rfl⟩, rfl,
    by decide, ?_⟩
  intro a i v b h
  unfold arrAssign at h
  split at h
  · injection h with h; subst h; simp
  · cases h

/-- C6: in `ifelse.go`, for every integer `n` held by `number` the chain writes
exactly one line, and that line is "Number is greater than 5" iff `n > 5`,
"Number is less than 5" iff `n < 5`, and "Number is equal to 5" iff `n = 5`;
10, 3 and 5 give the greater, less and equal lines, and the program as written
(`number` is 10) prints the greater line. -/
theorem ifelse_exactly_one_branch (n : Int) :
    (∃ st msg, exec (ifelseProg n).stmts IfSt.init = .ok st ∧
      st.number = n ∧ st.out = [msg] ∧
      (msg = "Number is greater than 5" ↔ n > 5) ∧
      (msg = "Number is less than 5" ↔ n < 5) ∧
      (msg = "Number is equal to 5" ↔ n = 5)) ∧
    (∃ st, exec (ifelseProg 10).stmts IfSt.init = .ok st ∧
      st.out = ["Number is greater than 5"]) ∧
    (∃ st, exec (ifelseProg 3).stmts IfSt.init = .ok st ∧
      st.out = ["Number is less than 5"]) ∧
    (∃ st, exec (ifelseProg 5).stmts IfSt.init = .ok st ∧
      st.out = ["Number is equal to 5"]) ∧
    (∃ st, exec ifelseMain.stmts IfSt.init = .ok st ∧
      st.out = ["Number is greater than 5"]) := by
  refine ⟨?_, ⟨_, rfl, rfl⟩, ⟨_, rfl, rfl⟩, ⟨_, rfl, rfl⟩, ⟨_, rfl, rfl⟩⟩
  have hgl : ("Number is greater than 5" : String) ≠ "Number is less than 5" := by decide
  have hge : ("Number is greater than 5" : String) ≠ "Number is equal to 5" := by decide
  have hle : ("Number is less than 5" : String) ≠ "Number is equal to 5" := by decide
  by_cases h1 : n > 5
  · refine ⟨⟨n, ["Number is greater than 5"]⟩, _, ?_, rfl, rfl, ?_, ?_, ?_⟩
    · simp [exec, Prog.stmts, ifelseProg, ifDeclare, ifChain, IfSt.init, h1]
    · simp [h1]
    · constructor
      · intro h; exact absurd h hgl
      · intro h; omega
    · constructor
      · intro h; exact absurd h hge
      · intro h; omega
  · by_cases h2 : n < 5
    · refine ⟨⟨n, ["Number is less than 5"]⟩, _, ?_, rfl, rfl, ?_, ?_, ?_⟩
      · simp [exec, Prog.stmts, ifelseProg, ifDeclare, ifChain, IfSt.init, h1, h2]
      · constructor
        · intro h; exact absurd h.symm hgl
        · intro h; omega
      · simp [h2]
      · constructor
        · intro h; exact absurd h hle
        · intro h; omega
    · refine ⟨⟨n, ["Number is equal to 5"]⟩, _, ?_, rfl, rfl, ?_, ?_, ?_⟩
      · simp [exec, Prog.stmts, ifelseProg, ifDeclare, ifChain, IfSt.init, h1, h2]
      · constructor
        · intro h; exact absurd h.symm hge
        · intro h; omega
      · constructor
        · intro h; exact absurd h.symm hle
        · intro h; omega
      · constructor
        · intro _; omega
        · intro _; rfl

/-- C7: in `pointers.go`, once `ptr` holds the address of `number` both
`number` and `*ptr` read 10; after `*ptr = 20` the binding `number` reads 20
and `*ptr` reads 20, and the two lines printed after the write show 20.  This
holds whatever address `number` gets and however `%p` renders it. -/
theorem pointers_write_through (cells : List Int) (fmtPtr : Option Nat → String) :
    ∃ s12 s16 s20,
      exec ((pointersProg fmtPtr).upTo 12) (PtrSt.init cells) = .ok s12 ∧
      s12.ptr = some s12.number ∧
      loadAt s12.store s12.number = .ok 10 ∧
      deref s12.store s12.ptr = .ok 10 ∧
      exec ((pointersProg fmtPtr).upTo 16) (PtrSt.init cells) = .ok s16 ∧
      ptrWrite s12 = .ok { s16 with out := s12.out } ∧
      s16.ptr = some s16.number ∧
      loadAt s16.store s16.number = .ok 20 ∧
      deref s16.store s16.ptr = .ok 20 ∧
      exec (pointersProg fmtPtr).stmts (PtrSt.init cells) = .ok s20 ∧
      s20.out = ["Number: 10, Address: " ++ fmtPtr (some cells.length),
                 "Pointer: " ++ fmtPtr (some cells.length) ++ ", Value: 10",
                 "Number after change: 20",
                 "Dereferenced pointer: 20"] := by
  have h10 := loadAt_concat cells 10
  have h20 := loadAt_concat cells 20
  have hst := storeVia_concat cells 10 20
  refine ⟨⟨cells ++ [10], cells.length, some cells.length,
      ["Number: 10, Address: " ++ fmtPtr (some cells.length)]⟩,
    ⟨cells ++ [20], cells.length, some cells.length,
      ["Number: 10, Address: " ++ fmtPtr (some cells.length),
       "Pointer: " ++ fmtPtr (some cells.length) ++ ", Value: 10"]⟩,
    ⟨cells ++ [20], cells.length, some cells.length,
      ["Number: 10, Address: " ++ fmtPtr (some cells.length),
       "Pointer: " ++ fmtPtr (some cells.length) ++ ", Value: 10",
       "Number after change: 20",
       "Dereferenced pointer: 20"]⟩, ?_, rfl, h10, h10, ?_, ?_, rfl, h20, h20, ?_, rfl⟩
  · simp [exec, Prog.upTo, pointersProg, ptrDeclareNumber, ptrPrintNumberAddr, ptrTakeAddr,
      PtrSt.init, h10, fmtInt]
    rfl
  · simp [exec, Prog.upTo, pointersProg, ptrDeclareNumber, ptrPrintNumberAddr, ptrTakeAddr,
      ptrPrintPtrValue, ptrWrite, deref, PtrSt.init, h10, hst, fmtInt]
    refine ⟨rfl, ?_⟩
    rw [String.append_assoc]
    rfl
  · simp [ptrWrite, hst]
  · simp [exec, Prog.stmts, pointersProg, ptrDeclareNumber, ptrPrintNumberAddr, ptrTakeAddr,
      ptrPrintPtrValue, ptrWrite, ptrPrintNumber, ptrPrintDeref, deref, PtrSt.init, h10, h20,
      hst, fmtInt]
    refine ⟨rfl, ?_, rfl, rfl⟩
    rw [String.append_assoc]
    rfl

/-- C8: in `structs.go`, the `Person` built as `Name: "John Doe", Age: 30`
reads back with `Name` equal to "John Doe" and `Age` equal to 30, and the one
line printed is "Name: John Doe, Age: 30". -/
theorem structs_fields_and_output :
    ∃ st, exec structsProg.stmts StructSt.init = .ok st ∧
      st.person.Name = "John Doe" ∧ st.person.Age = 30 ∧
      st.out = ["Name: John Doe, Age: 30"] := by
  exact ⟨_, rfl, rfl, rfl, by decide⟩

/-- C10: `arrary.go` and `slices.go` run to normal termination, every statement
being executed, and every bounds check made on the way is within bounds: array
indices 0..4 against length 5, slice indices 0, 2, 1 against length 3, and the
slice bounds `[:2]` and `[3:]` against length 5. -/
theorem demos_stay_in_bounds (grow : Nat → Nat → Nat) :
    (∃ st, exec arraryProg.stmts ArrSt.init = .ok st ∧
      (reached arraryProg.stmts ArrSt.init).length = arraryProg.length + 1 ∧
      st.checks = [.index 0 5, .index 1 5, .index 2 5, .index 3 5, .index 4 5,
                   .index 0 5, .index 4 5, .index 1 5, .index 1 5] ∧
      ∀ c ∈ st.checks, c.inBounds = true) ∧
    (∃ st, exec (slicesProg grow).stmts SliceSt.init = .ok st ∧
      (reached (slicesProg grow).stmts SliceSt.init).length = (slicesProg grow).length + 1 ∧
      st.checks = [.index 0 3, .index 2 3, .index 1 3, .index 1 3,
                   .slice 0 2 5, .slice 3 5 5] ∧
      ∀ c ∈ st.checks, c.inBounds = true) := by
  constructor
  · exact ⟨_, rfl, rfl, rfl, by decide⟩
  · obtain ⟨s, es, Hs⟩ := slices_at_end grow
    refine ⟨s, es, ?_, Hs.2.2.2, ?_⟩
    · rw [reached_length_of_ok _ _ _ es]
      rfl
    · rw [Hs.2.2.2]
      decide

end GoDemos
